import Mathlib

/-!
Verification development for the coolify-tools repository.

The model below is a shallow embedding of the session-aware HTTP client and
the multi-strategy content-extraction engine implemented by the `CoolifyLogs`
class (src/unnamed/part_002, second document, and src/view-logs.js).  Page
bodies, headers and cookies are modelled as `List Char`; the JavaScript
regular-expression scans are modelled by dedicated left-to-right scanners that
reproduce the deterministic behaviour of the concrete patterns appearing in
the source; `JSON.parse` is modelled by an executable strict JSON parser.
All recursive scanners are fuelled so that every definition reduces by kernel
computation on concrete inputs.
-/

section ScanPrimitives

/-- Character lists stand in for JavaScript strings. -/
abbrev LC := List Char

/-- Boolean prefix test on character lists (JS `String.prototype.startsWith`,
and the first step of every literal-prefix regex scan). -/
def isPre : LC → LC → Bool
  | [], _ => true
  | _ :: _, [] => false
  | a :: as, b :: bs => a == b && isPre as bs

/-- Boolean substring test (JS `String.prototype.includes`). -/
def containsSeq (pat : LC) : LC → Bool
  | [] => isPre pat []
  | c :: rest => isPre pat (c :: rest) || containsSeq pat rest

/-- Left-to-right global replace driven by a per-position step function that
returns the replacement text and the number of consumed characters.  This is
the shape of `String.prototype.replace` with a `/g` regex: at each position
the pattern is tried; on a match the engine emits the replacement and resumes
after the match, otherwise it keeps the character and moves one position on. -/
def replaceScan (step : LC → Option (LC × Nat)) : Nat → LC → LC
  | 0, s => s
  | _ + 1, [] => []
  | fuel + 1, c :: rest =>
    match step (c :: rest) with
    | some (rep, n) => rep ++ replaceScan step fuel ((c :: rest).drop (max n 1))
    | none => c :: replaceScan step fuel rest

/-- Step function for a plain literal pattern. -/
def litStep (pat rep : LC) (s : LC) : Option (LC × Nat) :=
  if pat ≠ [] ∧ isPre pat s then some (rep, pat.length) else none

/-- JS `s.replace(/lit/g, rep)` for a literal pattern `lit`. -/
def replaceAllLit (pat rep : LC) (s : LC) : LC :=
  replaceScan (litStep pat rep) (s.length + 1) s

/-- First match of a per-position pattern (JS `String.prototype.match` with a
non-global regex): positions are tried left to right and the first position
where the pattern succeeds wins. -/
def scanFirst {α : Type} (step : LC → Option α) : LC → Option α
  | [] => none
  | c :: rest =>
    match step (c :: rest) with
    | some a => some a
    | none => scanFirst step rest

/-- All matches of a per-position pattern (JS `RegExp.prototype.exec` driven
in a loop with the `g` flag): after a match the scan resumes at the end of
the consumed text, after a failed position it moves one character on. -/
def scanAll {α : Type} (step : LC → Option (α × Nat)) : Nat → LC → List α
  | 0, _ => []
  | _ + 1, [] => []
  | fuel + 1, c :: rest =>
    match step (c :: rest) with
    | some (a, n) => a :: scanAll step fuel ((c :: rest).drop (max n 1))
    | none => scanAll step fuel rest

/-- All positions at which a pattern succeeds, overlapping occurrences
included; used to express "order of first occurrence in the page body". -/
def scanAllOverlap {α : Type} (step : LC → Option α) : LC → List α
  | [] => []
  | c :: rest =>
    match step (c :: rest) with
    | some a => a :: scanAllOverlap step rest
    | none => scanAllOverlap step rest

/-- Append an element unless already present (the `if (!list.includes(x))
list.push(x)` idiom used throughout the source for deduplication). -/
def pushUnique (acc : List LC) (x : LC) : List LC :=
  if x ∈ acc then acc else acc ++ [x]

/-- Fold `pushUnique` over a list: keeps the first occurrence of each element
in encounter order. -/
def collectUnique (acc : List LC) : List LC → List LC
  | [] => acc
  | x :: t => collectUnique (pushUnique acc x) t

theorem isPre_iff (p s : LC) : isPre p s = true ↔ p <+: s := by
  induction p generalizing s with
  | nil => simp [isPre]
  | cons a as ih =>
    cases s with
    | nil => simp [isPre]
    | cons b bs =>
      simp only [isPre, Bool.and_eq_true, beq_iff_eq, ih, List.cons_prefix_cons]

theorem containsSeq_iff (p s : LC) : containsSeq p s = true ↔ p <:+: s := by
  induction s with
  | nil =>
    simp [containsSeq, isPre_iff, List.prefix_nil, List.infix_nil]
  | cons c rest ih =>
    simp only [containsSeq, Bool.or_eq_true, isPre_iff, ih]
    constructor
    · rintro (h | h)
      · exact h.isInfix
      · exact h.trans (List.suffix_cons c rest).isInfix
    · rintro ⟨pre, post, h⟩
      cases pre with
      | nil => left; exact ⟨post, by simpa using h⟩
      | cons d ds =>
        right
        refine ⟨ds, post, ?_⟩
        simpa using congrArg List.tail h

theorem pushUnique_nodup {acc : List LC} {x : LC} (h : acc.Nodup) :
    (pushUnique acc x).Nodup := by
  unfold pushUnique
  split
  · exact h
  · next hx =>
    rw [List.nodup_append]
    refine ⟨h, List.nodup_singleton x, ?_⟩
    intro b hb hbx
    simp only [List.mem_singleton] at hbx
    exact hx (hbx ▸ hb)

theorem collectUnique_nodup {l : List LC} :
    ∀ {acc : List LC}, acc.Nodup → (collectUnique acc l).Nodup := by
  induction l with
  | nil => intro acc h; exact h
  | cons x t ih => intro acc h; exact ih (pushUnique_nodup h)

theorem pushUnique_isPrefix (acc : List LC) (x : LC) : acc <+: pushUnique acc x := by
  unfold pushUnique
  split
  · exact List.prefix_refl _
  · exact ⟨[x], rfl⟩

theorem collectUnique_isPrefix (l : List LC) :
    ∀ acc : List LC, acc <+: collectUnique acc l := by
  induction l with
  | nil => intro acc; exact List.prefix_refl _
  | cons x t ih => intro acc; exact (pushUnique_isPrefix acc x).trans (ih _)

theorem mem_pushUnique {acc : List LC} {x y : LC} (h : y ∈ pushUnique acc x) :
    y ∈ acc ∨ y = x := by
  unfold pushUnique at h
  split at h
  · exact Or.inl h
  · rcases List.mem_append.mp h with h | h
    · exact Or.inl h
    · exact Or.inr (by simpa using h)

theorem mem_collectUnique {l : List LC} :
    ∀ {acc : List LC} {y : LC}, y ∈ collectUnique acc l → y ∈ acc ∨ y ∈ l := by
  induction l with
  | nil => intro acc y h; exact Or.inl h
  | cons x t ih =>
    intro acc y h
    rcases ih h with h | h
    · rcases mem_pushUnique h with h | h
      · exact Or.inl h
      · exact Or.inr (by simp [h])
    · exact Or.inr (List.mem_cons_of_mem _ h)

end ScanPrimitives

section JsonModel

/-- JSON values as produced by `JSON.parse`.  Numbers keep their source
lexeme: none of the modelled code computes with numeric values, it only
tests them for truthiness (zero mantissa) and stringifies them. -/
inductive Json where
  | null : Json
  | bool (b : Bool) : Json
  | num (raw : LC) : Json
  | str (s : LC) : Json
  | arr (elems : List Json) : Json
  | obj (fields : List (LC × Json)) : Json

/-- JSON insignificant whitespace. -/
def jsonWs (c : Char) : Bool := c == ' ' || c == '\t' || c == '\n' || c == '\r'

def skipWs (s : LC) : LC := s.dropWhile jsonWs

def hexVal (c : Char) : Option Nat :=
  if '0' ≤ c ∧ c ≤ '9' then some (c.toNat - '0'.toNat)
  else if 'a' ≤ c ∧ c ≤ 'f' then some (c.toNat - 'a'.toNat + 10)
  else if 'A' ≤ c ∧ c ≤ 'F' then some (c.toNat - 'A'.toNat + 10)
  else none

/-- Parse the remainder of a JSON string literal (the opening quote has been
consumed); returns the decoded characters and the rest of the input. -/
def parseJsonString : Nat → LC → Option (LC × LC)
  | 0, _ => none
  | _ + 1, [] => none
  | fuel + 1, c :: rest =>
    if c == '"' then some ([], rest)
    else if c == '\\' then
      match rest with
      | [] => none
      | e :: rest2 =>
        let cont := fun (ch : Char) (r : LC) =>
          match parseJsonString fuel r with
          | some (tail, rem) => some (ch :: tail, rem)
          | none => none
        if e == '"' then cont '"' rest2
        else if e == '\\' then cont '\\' rest2
        else if e == '/' then cont '/' rest2
        else if e == 'b' then cont (Char.ofNat 8) rest2
        else if e == 'f' then cont (Char.ofNat 12) rest2
        else if e == 'n' then cont '\n' rest2
        else if e == 'r' then cont '\r' rest2
        else if e == 't' then cont '\t' rest2
        else if e == 'u' then
          match rest2 with
          | h1 :: h2 :: h3 :: h4 :: rest3 =>
            match hexVal h1, hexVal h2, hexVal h3, hexVal h4 with
            | some a, some b, some c2, some d =>
              cont (Char.ofNat (((a * 16 + b) * 16 + c2) * 16 + d)) rest3
            | _, _, _, _ => none
          | _ => none
        else none
    else if c.toNat < 32 then none
    else
      match parseJsonString fuel rest with
      | some (tail, rem) => some (c :: tail, rem)
      | none => none

def digitSpan (s : LC) : LC × LC := (s.takeWhile Char.isDigit, s.dropWhile Char.isDigit)

/-- Strict JSON number grammar; returns the raw lexeme and the rest. -/
def parseJsonNumber (s : LC) : Option (LC × LC) :=
  let core := fun (s1 : LC) (neg : LC) =>
    match s1 with
    | [] => none
    | c :: _ =>
      if !c.isDigit then none
      else
        let ip := match s1 with
          | '0' :: t => some (['0'], t)
          | _ => some (digitSpan s1)
        match ip with
        | some (intPart, s2) =>
          let leadingZeroBad : Bool := match intPart, s2 with
            | ['0'], d :: _ => d.isDigit
            | _, _ => false
          if leadingZeroBad then none
          else
            let frac := match s2 with
              | '.' :: t =>
                let (fd, s3) := digitSpan t
                if fd = [] then none else some ('.' :: fd, s3)
              | _ => some (([] : LC), s2)
            match frac with
            | none => none
            | some (fracPart, s4) =>
              let expo := match s4 with
                | e :: t =>
                  if e == 'e' ∨ e == 'E' then
                    let (sgn, t2) := match t with
                      | '+' :: u => (['+'], u)
                      | '-' :: u => (['-'], u)
                      | _ => (([] : LC), t)
                    let (ed, s5) := digitSpan t2
                    if ed = [] then none else some (e :: (sgn ++ ed), s5)
                  else some (([] : LC), s4)
                | [] => some (([] : LC), s4)
              match expo with
              | none => none
              | some (expPart, s6) => some (neg ++ intPart ++ fracPart ++ expPart, s6)
        | none => none
  match s with
  | '-' :: t => core t ['-']
  | _ => core s []

mutual

/-- Recursive-descent JSON value parser (strict, like `JSON.parse`). -/
def parseValue : Nat → LC → Option (Json × LC)
  | 0, _ => none
  | fuel + 1, s0 =>
    match skipWs s0 with
    | [] => none
    | c :: rest =>
      if c == '\x7b' then
        match skipWs rest with
        | '\x7d' :: rem => some (.obj [], rem)
        | _ => parseMembers fuel [] rest
      else if c == '[' then
        match skipWs rest with
        | ']' :: rem => some (.arr [], rem)
        | _ => parseElems fuel [] rest
      else if c == '"' then
        match parseJsonString (rest.length + 1) rest with
        | some (str, rem) => some (.str str, rem)
        | none => none
      else if c == 't' then
        if isPre ['r', 'u', 'e'] rest then some (.bool true, rest.drop 3) else none
      else if c == 'f' then
        if isPre ['a', 'l', 's', 'e'] rest then some (.bool false, rest.drop 4) else none
      else if c == 'n' then
        if isPre ['u', 'l', 'l'] rest then some (.null, rest.drop 3) else none
      else
        match parseJsonNumber (c :: rest) with
        | some (raw, rem) => some (.num raw, rem)
        | none => none

/-- Object members after the opening brace (or after a comma). -/
def parseMembers : Nat → List (LC × Json) → LC → Option (Json × LC)
  | 0, _, _ => none
  | fuel + 1, fields, s =>
    match skipWs s with
    | '"' :: rest =>
      match parseJsonString (rest.length + 1) rest with
      | some (key, rem) =>
        match skipWs rem with
        | ':' :: rem2 =>
          match parseValue fuel rem2 with
          | some (v, rem3) =>
            let fields2 := insertField fields key v
            match skipWs rem3 with
            | ',' :: rem4 => parseMembers fuel fields2 rem4
            | '\x7d' :: rem4 => some (.obj fields2, rem4)
            | _ => none
          | none => none
        | _ => none
      | none => none
    | _ => none

/-- Array elements after the opening bracket (or after a comma). -/
def parseElems : Nat → List Json → LC → Option (Json × LC)
  | 0, _, _ => none
  | fuel + 1, elems, s =>
    match parseValue fuel s with
    | some (v, rem) =>
      match skipWs rem with
      | ',' :: rem2 => parseElems fuel (elems ++ [v]) rem2
      | ']' :: rem2 => some (.arr (elems ++ [v]), rem2)
      | _ => none
    | none => none

/-- Duplicate object keys: the later value wins, the original key position is
kept (`JSON.parse` semantics). -/
def insertField : List (LC × Json) → LC → Json → List (LC × Json)
  | [], k, v => [(k, v)]
  | (k1, v1) :: t, k, v =>
    if k1 = k then (k1, v) :: t else (k1, v1) :: insertField t k v

end

/-- `JSON.parse`: succeeds only when the entire payload is one JSON value
surrounded by nothing but whitespace. -/
def jsonParse (s : LC) : Option Json :=
  match parseValue (s.length + 1) s with
  | some (v, rest) => if skipWs rest = [] then some v else none
  | none => none

/-- A JSON number is falsy exactly when its mantissa is all zeroes. -/
def jsonNumIsZero (raw : LC) : Bool :=
  (raw.takeWhile (fun c => c != 'e' && c != 'E')).all (fun c => !c.isDigit || c == '0')

/-- JavaScript truthiness of a parsed JSON value. -/
def jsTruthy : Json → Bool
  | .null => false
  | .bool b => b
  | .num raw => !jsonNumIsZero raw
  | .str s => !s.isEmpty
  | .arr _ => true
  | .obj _ => true

/-- `String(v)` for a parsed JSON value.  Arrays stringify as their elements
joined with commas, null elements as empty text; plain objects stringify to
"[object Object]"; numbers are approximated by their source lexeme. -/
def jsToString : Nat → Json → LC
  | _, .null => "null".toList
  | _, .bool true => "true".toList
  | _, .bool false => "false".toList
  | _, .num raw => raw
  | _, .str s => s
  | 0, .arr _ => []
  | fuel + 1, .arr xs =>
    List.intercalate [','] (xs.map fun x =>
      match x with
      | .null => []
      | v => jsToString fuel v)
  | _, .obj _ => "[object Object]".toList

/-- Object property read `v[k]`; `none` models `undefined`. -/
def getField (v : Json) (k : LC) : Option Json :=
  match v with
  | .obj fields => (fields.find? (fun p => p.1 = k)).map Prod.snd
  | _ => none

/-- `Object.entries(v)` value column: object field values, array elements, or
the individual characters of a string. -/
def entriesValues : Json → List Json
  | .obj fields => fields.map Prod.snd
  | .arr xs => xs
  | .str s => s.map (fun c => Json.str [c])
  | _ => []

end JsonModel

section ContentExtractor

/-- Scanner for the pattern wire:snapshot="([^"]+)" — the opening literal
followed by a non-empty run of non-quote characters closed by a quote. -/
def wireStep (s : LC) : Option LC :=
  if isPre "wire:snapshot=\"".toList s then
    let after := s.drop 15
    let cap := after.takeWhile (· != '"')
    if cap = [] then none
    else
      match after.drop cap.length with
      | '"' :: _ => some cap
      | _ => none
  else none

def wireCapture (body : LC) : Option LC := scanFirst wireStep body

/-- The four entity replacements applied to the captured snapshot before
`JSON.parse`, in source order. -/
def decodeWireEntities (s : LC) : LC :=
  replaceAllLit "&amp;".toList "&".toList
    (replaceAllLit "&gt;".toList ">".toList
      (replaceAllLit "&lt;".toList "<".toList
        (replaceAllLit "&quot;".toList "\"".toList s)))

def truthyOpt : Option Json → Bool
  | some v => jsTruthy v
  | none => false

/-- The field search inside the parsed snapshot: `data.output`, `data.logs`,
`data.deployment_logs`, then the first entry of `data` whose value is a
string longer than 500 characters.  A `null` snapshot raises on the `.data`
access; the exception is caught by the enclosing try/catch, which is the same
outcome as no match. -/
def wireFieldSearch (w : Json) : Option Json :=
  match getField w "data".toList with
  | none => none
  | some d =>
    if !jsTruthy d then none
    else if truthyOpt (getField d "output".toList) then getField d "output".toList
    else if truthyOpt (getField d "logs".toList) then getField d "logs".toList
    else if truthyOpt (getField d "deployment_logs".toList) then
      getField d "deployment_logs".toList
    else
      (entriesValues d).find? (fun v =>
        match v with
        | .str s => decide (s.length > 500)
        | _ => false)

/-- Strategy 1: Livewire snapshot decode.  Any JSON parse failure is caught
locally and yields no match. -/
def strat1 (body : LC) : Option Json :=
  match wireCapture body with
  | none => none
  | some cap =>
    match jsonParse (decodeWireEntities cap) with
    | none => none
    | some w => wireFieldSearch w

/-- Scanner for <[^>]*>(Error|Server is not functional)[^<]*<\/[^>]*>; the
whole match is the extracted content. -/
def strat2Step (s : LC) : Option LC :=
  match s with
  | '<' :: rest =>
    let tagBody := rest.takeWhile (· != '>')
    match rest.drop tagBody.length with
    | '>' :: after =>
      let kw : Option LC :=
        if isPre "Error".toList after then some "Error".toList
        else if isPre "Server is not functional".toList after then
          some "Server is not functional".toList
        else none
      match kw with
      | none => none
      | some k =>
        let after2 := after.drop k.length
        let mid := after2.takeWhile (· != '<')
        match after2.drop mid.length with
        | '<' :: '/' :: rest2 =>
          let close := rest2.takeWhile (· != '>')
          match rest2.drop close.length with
          | '>' :: _ =>
            some ('<' :: tagBody ++ '>' :: (k ++ mid ++ '<' :: '/' :: close ++ ['>']))
          | _ => none
        | _ => none
    | _ => none
  | _ => none

/-- Strategy 2: status-markup scan. -/
def strat2 (body : LC) : Option LC := scanFirst strat2Step body

/-- Smallest offset k with 1 ≤ k ≤ fuel at which `closeTag` starts; models
the lazy bounded quantifier in ([\s\S]{1,5000}?) followed by the closing
tag. -/
def findCloseFrom (closeTag : LC) : Nat → LC → Option Nat
  | 0, _ => none
  | fuel + 1, s =>
    match s with
    | [] => none
    | _ :: rest =>
      if isPre closeTag rest then some 1
      else
        match findCloseFrom closeTag fuel rest with
        | some k => some (k + 1)
        | none => none

/-- Scanner for <pre[^>]*>([\s\S]{1,5000}?)<\/pre> (and the <code>
analogue): opening literal, attributes up to the first closing angle, then
the shortest non-empty capture of at most 5000 characters before the literal
closing tag. -/
def preStep (openLit closeTag : LC) (s : LC) : Option LC :=
  if isPre openLit s then
    let rest := s.drop openLit.length
    let tagRest := rest.takeWhile (· != '>')
    match rest.drop tagRest.length with
    | '>' :: after =>
      match findCloseFrom closeTag 5000 after with
      | some n => some (after.take n)
      | none => none
    | _ => none
  else none

/-- Strategy 3: preformatted-block scan. -/
def strat3 (body : LC) : Option LC := scanFirst (preStep "<pre".toList "</pre>".toList) body

/-- Strategy 4: code-block scan. -/
def strat4 (body : LC) : Option LC := scanFirst (preStep "<code".toList "</code>".toList) body

def lowerEq (a b : Char) : Bool := a.toLower == b.toLower

/-- Case-insensitive prefix test, for the /i patterns. -/
def isPreCI : LC → LC → Bool
  | [], _ => true
  | _ :: _, [] => false
  | a :: as, b :: bs => lowerEq a b && isPreCI as bs

/-- The keyword alternatives of strategy 5, in alternation order. -/
def kwList5 : List LC :=
  ["step", "clone", "install", "build", "error", "failed", "success", "docker"].map
    String.toList

/-- Scanner for (step|clone|install|build|error|failed|success|docker)
[^\n]{0,200} with the /gi flags: at a matching position the keyword is
consumed (first alternative in order, case-insensitively) together with up to
200 following non-newline characters. -/
def strat5Step (s : LC) : Option (LC × Nat) :=
  match kwList5.find? (fun k => isPreCI k s) with
  | some k =>
    let matched := s.take k.length
    let tail200 := ((s.drop k.length).takeWhile (· != '\n')).take 200
    some (matched ++ tail200, k.length + tail200.length)
  | none => none

/-- Strategy 5: keyword-line scan; all matches joined with newlines, no
match at all meaning the strategy yields nothing. -/
def strat5 (body : LC) : Option LC :=
  match scanAll strat5Step (body.length + 1) body with
  | [] => none
  | l => some (List.intercalate ['\n'] l)

/-- The extraction cascade of `getDeploymentLogs`: the five strategies are
tried in source order behind the `logFound` flag, so the first strategy that
produces content wins; the winning raw content is returned together with the
1-based strategy index. -/
def extractRaw (body : LC) : Option (Nat × Json) :=
  match strat1 body with
  | some v => some (1, v)
  | none =>
    match strat2 body with
    | some t => some (2, .str t)
    | none =>
      match strat3 body with
      | some t => some (3, .str t)
      | none =>
        match strat4 body with
        | some t => some (4, .str t)
        | none =>
          match strat5 body with
          | some t => some (5, .str t)
          | none => none

/-- JS whitespace characters recognised by \s (ASCII range and NBSP). -/
def jsWsChar (c : Char) : Bool :=
  c == ' ' || c == '\t' || c == '\n' || c == '\r' || c == Char.ofNat 12 ||
    c == Char.ofNat 11 || c == Char.ofNat 160

/-- Scanner for <br\s*\/?> with the /gi flags, replaced by a newline. -/
def brStep (s : LC) : Option (LC × Nat) :=
  match s with
  | c :: b :: r :: rest =>
    if c == '<' && lowerEq b 'b' && lowerEq r 'r' then
      let ws := rest.takeWhile jsWsChar
      match rest.drop ws.length with
      | '/' :: '>' :: _ => some (['\n'], 3 + ws.length + 2)
      | '>' :: _ => some (['\n'], 3 + ws.length + 1)
      | _ => none
    else none
  | _ => none

/-- Scanner for <[^>]+> (tag stripping), replaced by nothing. -/
def stripTagStep (s : LC) : Option (LC × Nat) :=
  match s with
  | c :: rest =>
    if c == '<' then
      let tagBody := rest.takeWhile (· != '>')
      if tagBody = [] then none
      else
        match rest.drop tagBody.length with
        | '>' :: _ => some ([], tagBody.length + 2)
        | _ => none
    else none
  | [] => none

/-- The normalization pipeline applied to winning extraction content: six
entity decodes, three escape-sequence conversions, <br> conversion, then tag
stripping — in exactly the source's replacement order. -/
def normalizeLogs (s : LC) : LC :=
  let p1 := replaceAllLit "&lt;".toList "<".toList s
  let p2 := replaceAllLit "&gt;".toList ">".toList p1
  let p3 := replaceAllLit "&amp;".toList "&".toList p2
  let p4 := replaceAllLit "&quot;".toList "\"".toList p3
  let p5 := replaceAllLit "&#039;".toList [Char.ofNat 39] p4
  let p6 := replaceAllLit "&nbsp;".toList " ".toList p5
  let p7 := replaceAllLit "\\n".toList "\n".toList p6
  let p8 := replaceAllLit "\\r".toList "\r".toList p7
  let p9 := replaceAllLit "\\t".toList "\t".toList p8
  let p10 := replaceScan brStep (p9.length + 1) p9
  replaceScan stripTagStep (p10.length + 1) p10

/-- `getDeploymentLogs` content extraction: the winning raw content is
stringified and normalized; when no strategy matched the function reports no
content (`null`) instead of raising. -/
def getDeploymentLogsExtract (body : LC) : Option LC :=
  match extractRaw body with
  | some (_, v) =>
    if jsTruthy v then some (normalizeLogs (jsToString (body.length + 1) v)) else none
  | none => none

end ContentExtractor

section SessionClient

/-- One raw HTTP exchange as seen by the client callback: status, the
Set-Cookie header list when present, the Location header when present, and
the accumulated body text. -/
structure RawResponse where
  status : Nat
  setCookie : Option (List LC)
  location : Option LC
  bodyText : LC

/-- The caller-supplied options of `request(url, options)`. -/
structure ReqOptions where
  method : Option LC
  headers : List (LC × LC)
  body : Option LC

/-- The mutable session state touched by `request`. -/
structure Session where
  baseURL : LC
  cookies : LC
  csrfToken : Option LC

/-- name=value portion of one Set-Cookie header: everything before the first
semicolon; attributes such as Path or Expires are discarded. -/
def cookiePair (c : LC) : LC := c.takeWhile (· != ';')

/-- The jar update on a response bearing Set-Cookie
(`this.cookies = res.headers['set-cookie'].map(c => c.split(';')[0]).join('; ')`):
the jar is replaced by the join of that response's pairs. -/
def foldSetCookie (hs : List LC) : LC :=
  List.intercalate "; ".toList (hs.map cookiePair)

def applyCookies (sess : Session) (r : RawResponse) : Session :=
  match r.setCookie with
  | some hs => { sess with cookies := foldSetCookie hs }
  | none => sess

/-- Assignment into a JS header object: overwrite in place or append. -/
def setHeader : List (LC × LC) → LC → LC → List (LC × LC)
  | [], k, v => [(k, v)]
  | (k1, v1) :: t, k, v => if k1 = k then (k, v) :: t else (k1, v1) :: setHeader t k v

def getHeader : List (LC × LC) → LC → Option LC
  | [], _ => none
  | p :: t, k => if p.1 = k then some p.2 else getHeader t k

/-- The fixed browser-like baseline headers of every request. -/
def baselineHeaders : List (LC × LC) :=
  [("User-Agent".toList,
    "Mozilla/5.0 (X11; Linux x86_64) AppleWebKit/537.36 (KHTML, like Gecko) Chrome/131.0.0.0 Safari/537.36".toList),
   ("Accept".toList, "*/*".toList),
   ("Accept-Language".toList, "en-US,en;q=0.9".toList),
   ("Connection".toList, "keep-alive".toList),
   ("Accept-Encoding".toList, "gzip, deflate, br".toList),
   ("Cache-Control".toList, "no-cache".toList)]

def utf8Len (s : LC) : Nat := (s.map Char.utf8Size).sum

def natToDec (n : Nat) : LC := (toString n).toList

/-- Outgoing header construction: baseline overlaid with caller headers,
then Cookie when the jar is non-empty, then the CSRF header when a token is
held, then Content-Length when a body is sent — in source order. -/
def buildHeaders (sess : Session) (opts : ReqOptions) : List (LC × LC) :=
  let h0 := opts.headers.foldl (fun h kv => setHeader h kv.1 kv.2) baselineHeaders
  let h1 := if sess.cookies ≠ [] then setHeader h0 "Cookie".toList sess.cookies else h0
  let h2 := match sess.csrfToken with
    | some t => if t = [] then h1 else setHeader h1 "X-CSRF-Token".toList t
    | none => h1
  match opts.body with
  | some b => setHeader h2 "Content-Length".toList (natToDec (utf8Len b))
  | none => h2

/-- One request as actually issued on the wire. -/
structure SentRequest where
  url : LC
  method : LC
  headers : List (LC × LC)
  body : Option LC

def mkSent (sess : Session) (url : LC) (opts : ReqOptions) : SentRequest :=
  { url := url
    method := opts.method.getD "GET".toList
    headers := buildHeaders sess opts
    body := opts.body }

/-- The resolved body of an `HttpResponse`: the parsed JSON value when the
entire payload is valid JSON, otherwise the raw text. -/
inductive HttpBody where
  | json (v : Json)
  | text (t : LC)

def parseBody (t : LC) : HttpBody :=
  match jsonParse t with
  | some v => .json v
  | none => .text t

structure HttpResponse where
  status : Nat
  body : HttpBody

/-- Redirect target resolution: an absolute Location is used as-is, anything
else is appended to the session base URL (never resolved against the
redirecting URL's own path). -/
def redirectTarget (baseURL loc : LC) : LC :=
  if isPre "http".toList loc then loc else baseURL ++ loc

/-- `request` driven by a trace of raw responses, one per issued request.
Cookies are folded into the session before the redirect check; a status in
the 300s with a Location header triggers a follow-up request with the same
options; otherwise the response is resolved with the opportunistically
parsed body.  The function returns every request issued and, when the trace
suffices, the final session and response; an exhausted trace models a
never-resolved exchange. -/
def runRequest (sess : Session) (url : LC) (opts : ReqOptions) :
    List RawResponse → List SentRequest × Option (Session × HttpResponse)
  | [] => ([mkSent sess url opts], none)
  | r :: rest =>
    let sent := mkSent sess url opts
    let sess2 := applyCookies sess r
    if 300 ≤ r.status ∧ r.status < 400 then
      match r.location with
      | some loc =>
        let next := runRequest sess2 (redirectTarget sess.baseURL loc) opts rest
        (sent :: next.1, next.2)
      | none => ([sent], some (sess2, ⟨r.status, parseBody r.bodyText⟩))
    else ([sent], some (sess2, ⟨r.status, parseBody r.bodyText⟩))

end SessionClient

section Authenticator

/-- Outcome of the credential check in `login`. -/
inductive LoginOutcome where
  | success
  | invalidCreds
  | typeError

def loginPhrase : LC := "These credentials do not match".toList

/-- `loginRes.body.includes('These credentials do not match')` with the JS
dispatch on the parsed body: substring test when the body is a string (raw
text, or a JSON string literal), element test when it parsed to an array,
and a TypeError — there is no `includes` method — on any other JSON value.
Only the phrase check decides the outcome; the status code is never
consulted and no positive success marker is verified. -/
def loginCheck : HttpBody → LoginOutcome
  | .text t => if containsSeq loginPhrase t then .invalidCreds else .success
  | .json (.str s) => if containsSeq loginPhrase s then .invalidCreds else .success
  | .json (.arr xs) =>
    if xs.any (fun x => match x with | .str s => s == loginPhrase | _ => false) then
      .invalidCreds
    else .success
  | .json _ => .typeError

/-- The outcome of `login` as a function of the POST /login response. -/
def login (resp : HttpResponse) : LoginOutcome := loginCheck resp.body

end Authenticator

section ResourceDiscoverer

/-- Character class [a-z0-9]. -/
def idChar (c : Char) : Bool := ('a' ≤ c && c ≤ 'z') || ('0' ≤ c && c ≤ '9')

/-- Scanner for a literal path prefix followed by a non-empty greedy run of
[a-z0-9]; the capture is the run. -/
def idStep (lit : LC) (s : LC) : Option (LC × Nat) :=
  if isPre lit s then
    let cap := (s.drop lit.length).takeWhile idChar
    if cap = [] then none else some (cap, lit.length + cap.length)
  else none

/-- All ids matched in a page in match order, deduplicated keeping first
encounters (the while-exec/push-unique loop used at every discovery level). -/
def idList (lit : LC) (body : LC) : List LC :=
  collectUnique [] (scanAll (idStep lit) (body.length + 1) body)

/-- The identifiers set by `discoverResources` and its boolean result. -/
structure DiscoverOut where
  projectId : Option LC
  environmentId : Option LC
  applicationId : Option LC
  ok : Bool

/-- `discoverResources`: project ids are scanned from the dashboard page and
the first one is taken; environment and application ids are both scanned
from that project's page, again taking the first match of each.  A level
with zero matches stops the walk and the call reports failure, leaving the
identifiers of the levels never reached unset. -/
def discoverResources (dashboardBody projectBody : LC) : DiscoverOut :=
  match (idList "/project/".toList dashboardBody).head? with
  | none => ⟨none, none, none, false⟩
  | some p =>
    match (idList "/environment/".toList projectBody).head? with
    | none => ⟨some p, none, none, false⟩
    | some e =>
      match (idList "/application/".toList projectBody).head? with
      | none => ⟨some p, some e, none, false⟩
      | some a => ⟨some p, some e, some a, true⟩

end ResourceDiscoverer

section DeploymentsList

/-- The deployment-status keywords of the primary list pattern
(case-sensitive alternation Success|Failed|Running|Pending). -/
def kwStatus : List LC := ["Success", "Failed", "Running", "Pending"].map String.toList

def containsStatusKW (r : LC) : Bool := kwStatus.any (fun k => containsSeq k r)

/-- Total length of the maximal chain of consecutive <[^>]*> tags at the
front of the input (each tag runs to the first closing angle). -/
def tagChainLen : Nat → LC → Nat
  | 0, _ => 0
  | fuel + 1, s =>
    match s with
    | '<' :: rest =>
      let tagBody := rest.takeWhile (· != '>')
      match rest.drop tagBody.length with
      | '>' :: after => (tagBody.length + 2) + tagChainLen fuel after
      | _ => 0
    | _ => 0

def deployLit : LC := "/deployment/".toList

/-- The literal /deployment/ followed by exactly 24 characters of [a-z0-9];
the capture is those 24 characters. -/
def deployIdAt (s : LC) : Option LC :=
  if isPre deployLit s then
    let id24 := (s.drop 12).take 24
    if id24.length == 24 && id24.all idChar then some id24 else none
  else none

/-- Deterministic scanner for the primary deployments pattern: the id
capture, then a greedy run of non-angle characters, then a maximal chain of
consecutive tags, then another such run.  The backtracking engine first
tries the run after the tag chain and only then falls back into the first
run, so the position matches exactly when either run contains a status
keyword, and the whole match extends to the end of the keyword-bearing run
(the trailing greedy non-angle quantifier). -/
def deployStatusStep (s : LC) : Option (LC × Nat) :=
  match deployIdAt s with
  | none => none
  | some id24 =>
    let j := s.drop 36
    let r0 := j.takeWhile (· != '<')
    let afterR0 := j.drop r0.length
    let chain := tagChainLen (afterR0.length + 1) afterR0
    let r1 := (afterR0.drop chain).takeWhile (· != '<')
    if containsStatusKW r1 then some (id24, 36 + r0.length + chain + r1.length)
    else if containsStatusKW r0 then some (id24, 36 + r0.length)
    else none

/-- Fallback scanner: just the id pattern; the match is the literal plus the
24 captured characters. -/
def deploySimpleStep (s : LC) : Option (LC × Nat) :=
  (deployIdAt s).map (fun id24 => (id24, 36))

/-- `getDeploymentsList` id extraction (part_002): primary status-pattern
scan, falling back to the plain id scan when the primary finds nothing; both
deduplicate keeping first encounters, and the resulting ids are returned in
that order (first is treated as the latest deployment). -/
def getDeploymentsList (body : LC) : List LC :=
  let primary := collectUnique [] (scanAll deployStatusStep (body.length + 1) body)
  if primary = [] then collectUnique [] (scanAll deploySimpleStep (body.length + 1) body)
  else primary

/-- `getDeploymentsList` of src/view-logs.js: only the plain id scan. -/
def getDeploymentsListSimple (body : LC) : List LC :=
  collectUnique [] (scanAll deploySimpleStep (body.length + 1) body)

/-- The ids of every position of the page at which the plain deployment
pattern matches, overlapping positions included: the occurrences of
deployment ids "in page order". -/
def deployOccurrences (body : LC) : List LC := scanAllOverlap deployIdAt body

end DeploymentsList

section CascadeLemmas

theorem scanFirst_pred {α : Type} {step : LC → Option α} {P : α → Prop}
    (hstep : ∀ s a, step s = some a → P a) :
    ∀ {s : LC} {a : α}, scanFirst step s = some a → P a := by
  intro s
  induction s with
  | nil => intro a h; simp [scanFirst] at h
  | cons c rest ih =>
    intro a h
    rw [scanFirst] at h
    cases hs : step (c :: rest) with
    | some b => rw [hs] at h; exact hstep _ _ (hs.trans h)
    | none => rw [hs] at h; exact ih h

theorem scanAll_pred {α : Type} {step : LC → Option (α × Nat)} {P : α → Prop}
    (hstep : ∀ s a n, step s = some (a, n) → P a) :
    ∀ {fuel : Nat} {s : LC} {a : α}, a ∈ scanAll step fuel s → P a := by
  intro fuel
  induction fuel with
  | zero => intro s a h; simp [scanAll] at h
  | succ f ih =>
    intro s a h
    cases s with
    | nil => simp [scanAll] at h
    | cons c rest =>
      rw [scanAll] at h
      cases hs : step (c :: rest) with
      | some p =>
        rw [hs] at h
        rcases List.mem_cons.mp h with h | h
        · exact h ▸ hstep _ _ _ (by rw [hs])
        · exact ih h
      | none => rw [hs] at h; exact ih h

theorem findCloseFrom_pos {ct : LC} :
    ∀ {fuel : Nat} {s : LC} {n : Nat}, findCloseFrom ct fuel s = some n → 1 ≤ n ∧ s ≠ [] := by
  intro fuel
  induction fuel with
  | zero => intro s n h; simp [findCloseFrom] at h
  | succ f ih =>
    intro s n h
    cases s with
    | nil => simp [findCloseFrom] at h
    | cons c rest =>
      rw [findCloseFrom] at h
      split at h
      · cases h; exact ⟨le_refl 1, by simp⟩
      · cases hr : findCloseFrom ct f rest with
        | some k => rw [hr] at h; cases h; exact ⟨by omega, by simp⟩
        | none => rw [hr] at h; cases h

theorem truthyOpt_some {o : Option Json} {v : Json} (ht : truthyOpt o = true)
    (he : o = some v) : jsTruthy v = true := by
  subst he; simpa [truthyOpt] using ht

theorem wireFieldSearch_truthy {w v : Json} (h : wireFieldSearch w = some v) :
    jsTruthy v = true := by
  unfold wireFieldSearch at h
  split at h
  · cases h
  · split at h
    · cases h
    · split at h
      · next ht => exact truthyOpt_some ht h
      · split at h
        · next ht => exact truthyOpt_some ht h
        · split at h
          · next ht => exact truthyOpt_some ht h
          · have hp := List.find?_some h
            cases v with
            | str s =>
              simp only [decide_eq_true_eq] at hp
              cases s with
              | nil => simp at hp
              | cons c cs => simp [jsTruthy]
            | null => simp at hp
            | bool b => simp at hp
            | num r => simp at hp
            | arr xs => simp at hp
            | obj fs => simp at hp

theorem strat1_truthy {body : LC} {v : Json} (h : strat1 body = some v) :
    jsTruthy v = true := by
  unfold strat1 at h
  split at h
  · cases h
  · split at h
    · cases h
    · exact wireFieldSearch_truthy h

theorem strat2Step_ne_nil (s : LC) (t : LC) (h : strat2Step s = some t) : t ≠ [] := by
  unfold strat2Step at h
  dsimp only at h
  repeat' split at h
  all_goals (try cases h)
  all_goals simp

theorem strat2_ne_nil {body t : LC} (h : strat2 body = some t) : t ≠ [] :=
  scanFirst_pred (P := fun t => t ≠ []) (fun s a ha => strat2Step_ne_nil s a ha) h

theorem preStep_ne_nil (openLit closeTag : LC) (s : LC) (t : LC)
    (h : preStep openLit closeTag s = some t) : t ≠ [] := by
  unfold preStep at h
  dsimp only at h
  repeat' split at h
  all_goals (try cases h)
  rename_i after n heq
  have hp := findCloseFrom_pos heq
  intro hnil
  rcases List.take_eq_nil_iff.mp hnil with h0 | h0
  · omega
  · exact hp.2 h0

theorem strat3_ne_nil {body t : LC} (h : strat3 body = some t) : t ≠ [] :=
  scanFirst_pred (P := fun t => t ≠ [])
    (fun s a ha => preStep_ne_nil _ _ s a ha) h

theorem strat4_ne_nil {body t : LC} (h : strat4 body = some t) : t ≠ [] :=
  scanFirst_pred (P := fun t => t ≠ [])
    (fun s a ha => preStep_ne_nil _ _ s a ha) h

theorem strat5Step_ne_nil (s : LC) (a : LC) (n : Nat)
    (h : strat5Step s = some (a, n)) : a ≠ [] := by
  unfold strat5Step at h
  cases hf : kwList5.find? (fun k => isPreCI k s) with
  | none => rw [hf] at h; cases h
  | some k =>
    rw [hf] at h
    cases h
    have hk : k ∈ kwList5 := List.mem_of_find?_eq_some hf
    have hpre : isPreCI k s = true := by
      have := List.find?_some hf
      exact this
    have hall : ∀ x ∈ kwList5, x ≠ [] := by decide
    have hkne : k ≠ [] := hall k hk
    cases k with
    | nil => exact absurd rfl hkne
    | cons kc kt =>
      cases s with
      | nil => simp [isPreCI] at hpre
      | cons sc st => simp

theorem strat5_ne_nil {body t : LC} (h : strat5 body = some t) : t ≠ [] := by
  unfold strat5 at h
  cases hl : scanAll strat5Step (body.length + 1) body with
  | nil => rw [hl] at h; cases h
  | cons x xs =>
    rw [hl] at h
    cases h
    have hmem : x ∈ scanAll strat5Step (body.length + 1) body := by
      rw [hl]; exact List.mem_cons_self x xs
    have hx : x ≠ [] := scanAll_pred (P := fun a => a ≠ []) strat5Step_ne_nil hmem
    cases xs with
    | nil => simpa [List.intercalate] using hx
    | cons y ys =>
      simp only [List.intercalate, List.intersperse, List.flatten]
      intro hcontra
      rcases List.append_eq_nil.mp hcontra with ⟨h1, _⟩
      exact hx h1

end CascadeLemmas

section ExtractionClaims

/-- The yield of strategy `i` on a page body; strategies 2 to 5 yield
strings, strategy 1 yields the JSON value found in the snapshot. -/
def strategyYield (body : LC) : Nat → Option Json
  | 1 => strat1 body
  | 2 => (strat2 body).map .str
  | 3 => (strat3 body).map .str
  | 4 => (strat4 body).map .str
  | 5 => (strat5 body).map .str
  | _ => none

/-- Specification-side cascade: the first strategy in the fixed priority
order 1..5 with a yield, paired with its yield. -/
def firstYield (body : LC) : Option (Nat × Json) :=
  [1, 2, 3, 4, 5].findSome? (fun i => (strategyYield body i).map (fun v => (i, v)))

theorem jsTruthy_str_of_ne_nil {t : LC} (h : t ≠ []) : jsTruthy (Json.str t) = true := by
  cases t with
  | nil => exact absurd rfl h
  | cons c cs => simp [jsTruthy]

theorem str_ne_nil_of_truthy {s : LC} (h : jsTruthy (Json.str s) = true) : s ≠ [] := by
  cases s with
  | nil => simp [jsTruthy] at h
  | cons c cs => simp

theorem extractRaw_truthy {body : LC} {i : Nat} {v : Json}
    (h : extractRaw body = some (i, v)) : jsTruthy v = true := by
  unfold extractRaw at h
  split at h
  · next heq => cases h; exact strat1_truthy heq
  · split at h
    · next heq => cases h; exact jsTruthy_str_of_ne_nil (strat2_ne_nil heq)
    · split at h
      · next heq => cases h; exact jsTruthy_str_of_ne_nil (strat3_ne_nil heq)
      · split at h
        · next heq => cases h; exact jsTruthy_str_of_ne_nil (strat4_ne_nil heq)
        · split at h
          · next heq => cases h; exact jsTruthy_str_of_ne_nil (strat5_ne_nil heq)
          · cases h

/-- Claim C1 (confirmed): the extractor applies the five strategies in fixed
priority order and short-circuits on the first one that yields content; the
winning raw content is always truthy — for string content, non-empty — and
the final result is the normalization of that content, so for a fixed page
body both the result and the selected strategy are uniquely determined. -/
theorem C1_extract_priority_order (body : LC) :
    extractRaw body = firstYield body ∧
    (∀ i v, extractRaw body = some (i, v) →
      jsTruthy v = true ∧ ∀ s, v = Json.str s → s ≠ []) ∧
    getDeploymentLogsExtract body =
      (extractRaw body).map (fun p => normalizeLogs (jsToString (body.length + 1) p.2)) := by
  refine ⟨?_, ?_, ?_⟩
  · cases h1 : strat1 body <;> cases h2 : strat2 body <;> cases h3 : strat3 body <;>
      cases h4 : strat4 body <;> cases h5 : strat5 body <;>
      simp [extractRaw, firstYield, List.findSome?, strategyYield, h1, h2, h3, h4, h5]
  · intro i v h
    have ht := extractRaw_truthy h
    exact ⟨ht, fun s hs => str_ne_nil_of_truthy (hs ▸ ht)⟩
  · cases h : extractRaw body with
    | none => simp [getDeploymentLogsExtract, h]
    | some p =>
      obtain ⟨i, v⟩ := p
      simp [getDeploymentLogsExtract, h, extractRaw_truthy h]

theorem strat1_parseFail {body cap : LC} (hw : wireCapture body = some cap)
    (hp : jsonParse (decodeWireEntities cap) = none) : strat1 body = none := by
  simp [strat1, hw, hp]

/-- Claim C6 (confirmed): when all five strategies yield nothing the
extraction reports absent content instead of raising, and a JSON parse error
inside the snapshot strategy is caught locally: it only skips strategy 1 and
the cascade continues with strategies 2 to 5 exactly as if strategy 1 had
not matched. -/
theorem C6_extraction_error_handling (body : LC) :
    ((∀ i ∈ [1, 2, 3, 4, 5], strategyYield body i = none) →
      getDeploymentLogsExtract body = none) ∧
    (∀ cap : LC, wireCapture body = some cap →
      jsonParse (decodeWireEntities cap) = none →
      strat1 body = none ∧
      extractRaw body =
        [2, 3, 4, 5].findSome? (fun i => (strategyYield body i).map (fun v => (i, v)))) := by
  constructor
  · intro hall
    have h1 : strat1 body = none := by simpa [strategyYield] using hall 1 (by simp)
    have h2 : strat2 body = none := by simpa [strategyYield] using hall 2 (by simp)
    have h3 : strat3 body = none := by simpa [strategyYield] using hall 3 (by simp)
    have h4 : strat4 body = none := by simpa [strategyYield] using hall 4 (by simp)
    have h5 : strat5 body = none := by simpa [strategyYield] using hall 5 (by simp)
    simp [getDeploymentLogsExtract, extractRaw, h1, h2, h3, h4, h5]
  · intro cap hw hp
    have h1 := strat1_parseFail hw hp
    refine ⟨h1, ?_⟩
    cases h2 : strat2 body <;> cases h3 : strat3 body <;>
      cases h4 : strat4 body <;> cases h5 : strat5 body <;>
      simp [extractRaw, List.findSome?, strategyYield, h1, h2, h3, h4, h5]

/-- Witness for C6 at concrete inputs: a page with no extractable content at
all yields absent content, and a page whose wire:snapshot holds malformed
JSON skips strategy 1 and lets the preformatted block win. -/
theorem C6_extraction_error_handling_witness :
    getDeploymentLogsExtract "nothing here".toList = none ∧
    (strat1 "wire:snapshot=\"notjson\" <pre>X</pre>".toList = none ∧
      extractRaw "wire:snapshot=\"notjson\" <pre>X</pre>".toList =
        [2, 3, 4, 5].findSome?
          (fun i =>
            (strategyYield "wire:snapshot=\"notjson\" <pre>X</pre>".toList i).map
              (fun v => (i, v)))) := by
  constructor
  · exact (C6_extraction_error_handling "nothing here".toList).1
      (by intro i hi; fin_cases hi <;> rfl)
  · exact (C6_extraction_error_handling "wire:snapshot=\"notjson\" <pre>X</pre>".toList).2
      "notjson".toList rfl rfl

end ExtractionClaims

section RequestClaims

theorem runRequest_redirect_step (sess : Session) (url : LC) (opts : ReqOptions)
    (r : RawResponse) (rest : List RawResponse) (loc : LC)
    (hs : 300 ≤ r.status) (hs2 : r.status < 400) (hl : r.location = some loc) :
    runRequest sess url opts (r :: rest) =
      (mkSent sess url opts ::
        (runRequest (applyCookies sess r) (redirectTarget sess.baseURL loc) opts rest).1,
       (runRequest (applyCookies sess r) (redirectTarget sess.baseURL loc) opts rest).2) := by
  rw [runRequest]
  simp [hl, hs, hs2]

theorem runRequest_resolve_step (sess : Session) (url : LC) (opts : ReqOptions)
    (r : RawResponse) (rest : List RawResponse)
    (hnr : ¬(300 ≤ r.status ∧ r.status < 400 ∧ r.location.isSome = true)) :
    runRequest sess url opts (r :: rest) =
      ([mkSent sess url opts],
       some (applyCookies sess r, ⟨r.status, parseBody r.bodyText⟩)) := by
  rw [runRequest]
  by_cases h3 : 300 ≤ r.status ∧ r.status < 400
  · have hln : r.location = none := by
      cases hl : r.location with
      | none => rfl
      | some l => exact absurd ⟨h3.1, h3.2, by simp [hl]⟩ hnr
    simp [h3, hln]
  · simp [h3]

/-- Claim C3 (confirmed): a response with status in the 300s and a Location
header makes `request` issue a follow-up request with the same options; an
absolute Location is used as-is while a relative one is appended to the base
URL, so a relative Location /foo on a response to base/a/b resolves to
base/foo — the redirecting URL's own path never enters the resolution, as
the follow-up requests are identical for any original request URL. -/
theorem C3_redirect_resolution (sess : Session) (url : LC) (opts : ReqOptions)
    (r : RawResponse) (rest : List RawResponse) (loc : LC)
    (hs : 300 ≤ r.status) (hs2 : r.status < 400) (hl : r.location = some loc) :
    runRequest sess url opts (r :: rest) =
      (mkSent sess url opts ::
        (runRequest (applyCookies sess r) (redirectTarget sess.baseURL loc) opts rest).1,
       (runRequest (applyCookies sess r) (redirectTarget sess.baseURL loc) opts rest).2) ∧
    (isPre "http".toList loc = false → redirectTarget sess.baseURL loc = sess.baseURL ++ loc) ∧
    (isPre "http".toList loc = true → redirectTarget sess.baseURL loc = loc) ∧
    (∀ url2 : LC,
      (runRequest sess url2 opts (r :: rest)).1.tail =
        (runRequest sess url opts (r :: rest)).1.tail) := by
  refine ⟨runRequest_redirect_step sess url opts r rest loc hs hs2 hl, ?_, ?_, ?_⟩
  · intro hrel; unfold redirectTarget; rw [hrel]; simp
  · intro habs; unfold redirectTarget; rw [habs]; simp
  · intro url2
    rw [runRequest_redirect_step sess url opts r rest loc hs hs2 hl,
      runRequest_redirect_step sess url2 opts r rest loc hs hs2 hl]
    rfl

/-- Witness for C3: a relative Location /foo on a request to base/a/b
resolves against the base URL alone. -/
theorem C3_redirect_resolution_witness :
    redirectTarget "https://h".toList "/foo".toList =
      "https://h".toList ++ "/foo".toList := by
  exact (C3_redirect_resolution ⟨"https://h".toList, [], none⟩ "https://h/a/b".toList
    ⟨none, [], none⟩ ⟨302, none, some "/foo".toList, []⟩ [] "/foo".toList
    (by decide) (by decide) rfl).2.1 (by decide)

/-- Claim C7 (confirmed): the body of a resolved response is the parsed JSON
value when the entire payload text is valid JSON and the raw text unchanged
otherwise. -/
theorem C7_body_parsing (sess : Session) (url : LC) (opts : ReqOptions)
    (r : RawResponse) (rest : List RawResponse)
    (hnr : ¬(300 ≤ r.status ∧ r.status < 400 ∧ r.location.isSome = true)) :
    (runRequest sess url opts (r :: rest)).2 =
      some (applyCookies sess r, ⟨r.status, parseBody r.bodyText⟩) ∧
    (∀ (t : LC) (v : Json), jsonParse t = some v → parseBody t = .json v) ∧
    (∀ t : LC, jsonParse t = none → parseBody t = .text t) := by
  refine ⟨?_, fun t v h => by simp [parseBody, h], fun t h => by simp [parseBody, h]⟩
  rw [runRequest_resolve_step sess url opts r rest hnr]

/-- Witness for C7: a JSON array payload parses, a non-JSON payload is
returned as raw text. -/
theorem C7_body_parsing_witness :
    (runRequest ⟨"https://h".toList, [], none⟩ "https://h/x".toList ⟨none, [], none⟩
        [⟨200, none, none, "[1, 2]".toList⟩]).2 =
      some (⟨"https://h".toList, [], none⟩,
        ⟨200, parseBody "[1, 2]".toList⟩) ∧
    parseBody "nonjson".toList = .text "nonjson".toList := by
  constructor
  · exact (C7_body_parsing ⟨"https://h".toList, [], none⟩ "https://h/x".toList
      ⟨none, [], none⟩ ⟨200, none, none, "[1, 2]".toList⟩ [] (by simp)).1
  · exact (C7_body_parsing ⟨"https://h".toList, [], none⟩ "https://h/x".toList
      ⟨none, [], none⟩ ⟨200, none, none, "[1, 2]".toList⟩ [] (by simp)).2.2
      "nonjson".toList rfl

/-- The trace of a server that answers every request with a 302 carrying a
Location header. -/
def allRedirects (n : Nat) : List RawResponse :=
  List.replicate n ⟨302, none, some "/x".toList, []⟩

/-- Claim C8 (confirmed): redirect-following has no depth limit: against a
server that always redirects, after any number N of served responses the
client has issued N+1 requests and still has no resolved response, so no
bound on the redirect chain exists. -/
theorem C8_unbounded_redirects (n : Nat) (sess : Session) (url : LC) (opts : ReqOptions) :
    (runRequest sess url opts (allRedirects n)).2 = none ∧
    (runRequest sess url opts (allRedirects n)).1.length = n + 1 := by
  induction n generalizing sess url with
  | zero => simp [allRedirects, runRequest]
  | succ m ih =>
    have hstep := runRequest_redirect_step sess url opts
      ⟨302, none, some "/x".toList, []⟩ (allRedirects m) "/x".toList
      (by decide) (by decide) rfl
    rw [show allRedirects (m + 1) =
      (⟨302, none, some "/x".toList, []⟩ : RawResponse) :: allRedirects m from rfl]
    rw [hstep]
    have hrec := ih (applyCookies sess ⟨302, none, some "/x".toList, []⟩)
      (redirectTarget sess.baseURL "/x".toList)
    dsimp only
    exact ⟨hrec.1, by rw [List.length_cons, hrec.2]⟩

end RequestClaims

section CookieClaims

/-- The jar update of one response as seen from the jar alone. -/
def applyCookiesJar (jar : LC) (r : RawResponse) : LC :=
  match r.setCookie with
  | some hs => foldSetCookie hs
  | none => jar

/-- The cookie jar along a sequence of responses. -/
def jarTrace (init : LC) : List RawResponse → LC
  | [] => init
  | r :: rest => jarTrace (applyCookiesJar init r) rest

theorem getHeader_setHeader_self (hs : List (LC × LC)) (k v : LC) :
    getHeader (setHeader hs k v) k = some v := by
  induction hs with
  | nil => simp [setHeader, getHeader]
  | cons p t ih =>
    obtain ⟨k1, v1⟩ := p
    by_cases hk : k1 = k
    · simp [setHeader, hk, getHeader]
    · simp only [setHeader, if_neg hk]
      simp only [getHeader]
      rw [if_neg hk]
      exact ih

theorem getHeader_setHeader_ne (hs : List (LC × LC)) (k2 v k : LC) (h : k2 ≠ k) :
    getHeader (setHeader hs k2 v) k = getHeader hs k := by
  induction hs with
  | nil => simp [setHeader, getHeader, if_neg h]
  | cons p t ih =>
    obtain ⟨k1, v1⟩ := p
    by_cases hk : k1 = k2
    · subst hk
      simp only [setHeader, if_pos rfl]
      simp only [getHeader]
      rw [if_neg h, if_neg h]
    · simp only [setHeader, if_neg hk]
      simp only [getHeader]
      by_cases hc : k1 = k
      · rw [if_pos hc, if_pos hc]
      · rw [if_neg hc, if_neg hc]
        exact ih

/-- When the jar is non-empty, the Cookie header of every outgoing request
is exactly the jar. -/
theorem cookie_header_attached (sess : Session) (opts : ReqOptions)
    (h : sess.cookies ≠ []) :
    getHeader (buildHeaders sess opts) "Cookie".toList = some sess.cookies := by
  unfold buildHeaders
  dsimp only
  rw [if_pos h]
  cases hb : opts.body <;> cases hc : sess.csrfToken <;> dsimp only
  · exact getHeader_setHeader_self _ _ _
  · next t =>
    by_cases ht : t = []
    · rw [if_pos ht]
      exact getHeader_setHeader_self _ _ _
    · rw [if_neg ht, getHeader_setHeader_ne _ _ _ _ (by decide)]
      exact getHeader_setHeader_self _ _ _
  · rw [getHeader_setHeader_ne _ _ _ _ (by decide)]
    exact getHeader_setHeader_self _ _ _
  · next t =>
    by_cases ht : t = []
    · rw [if_pos ht, getHeader_setHeader_ne _ _ _ _ (by decide)]
      exact getHeader_setHeader_self _ _ _
    · rw [if_neg ht, getHeader_setHeader_ne _ _ _ _ (by decide),
        getHeader_setHeader_ne _ _ _ _ (by decide)]
      exact getHeader_setHeader_self _ _ _

theorem jarTrace_const (j : LC) (rs : List RawResponse)
    (hnone : ∀ r ∈ rs, r.setCookie = none) : jarTrace j rs = j := by
  induction rs generalizing j with
  | nil => rfl
  | cons a t ih =>
    rw [jarTrace, show applyCookiesJar j a = j from by
      unfold applyCookiesJar; rw [hnone a (by simp)]]
    exact ih j (fun r hr => hnone r (by simp [hr]))

/-- Counterexample to claim C2: after a response setting cookie a=1 followed
by a response setting only b=2, the jar — hence the Cookie header on the
next request — is "b=2": the jar was replaced wholesale by the latest
response's pairs and cookie a was dropped, whereas the claim's join of the
most recently observed pairs for each cookie name would be "a=1; b=2". -/
theorem C2_cookie_fold_counterexample :
    jarTrace [] [⟨200, some ["a=1; Path=/".toList], none, []⟩,
      ⟨200, some ["b=2".toList], none, []⟩] = "b=2".toList ∧
    getHeader (buildHeaders ⟨"https://h".toList, "b=2".toList, none⟩ ⟨none, [], none⟩)
      "Cookie".toList = some "b=2".toList ∧
    "b=2".toList ≠ "a=1; b=2".toList := by
  exact ⟨rfl, rfl, by decide⟩

/-- Claim C2 (amended): on any response bearing Set-Cookie the client
replaces the whole jar with the join of that response's name=value portions
(attributes discarded) before processing the rest of the response; hence
after any trace of responses the jar — and the Cookie header attached to
the next request — equals the join of the pairs of the most recent
Set-Cookie-bearing response, cookies from earlier responses not reissued
being dropped, and an immediately-following redirect already carries the
newly folded cookies. -/
theorem C2_cookie_fold_amended (init : LC) (rs rs2 : List RawResponse)
    (r : RawResponse) (hs : List LC) (hr : r.setCookie = some hs)
    (hnone : ∀ r2 ∈ rs2, r2.setCookie = none) :
    jarTrace init (rs ++ r :: rs2) = foldSetCookie hs ∧
    (∀ (sess : Session) (opts : ReqOptions), foldSetCookie hs ≠ [] →
      getHeader (buildHeaders { sess with cookies := foldSetCookie hs } opts)
        "Cookie".toList = some (foldSetCookie hs)) ∧
    (∀ (sess : Session) (url : LC) (opts : ReqOptions) (rest : List RawResponse)
      (loc : LC), 300 ≤ r.status → r.status < 400 → r.location = some loc →
      runRequest sess url opts (r :: rest) =
        (mkSent sess url opts ::
          (runRequest { sess with cookies := foldSetCookie hs }
            (redirectTarget sess.baseURL loc) opts rest).1,
         (runRequest { sess with cookies := foldSetCookie hs }
            (redirectTarget sess.baseURL loc) opts rest).2)) := by
  refine ⟨?_, ?_, ?_⟩
  · induction rs generalizing init with
    | nil =>
      rw [List.nil_append, jarTrace, show applyCookiesJar init r = foldSetCookie hs from by
        unfold applyCookiesJar; rw [hr]]
      exact jarTrace_const _ _ hnone
    | cons a t ih => rw [List.cons_append, jarTrace]; exact ih _
  · intro sess opts hne
    exact cookie_header_attached _ opts hne
  · intro sess url opts rest loc h1 h2 h3
    have hac : applyCookies sess r = { sess with cookies := foldSetCookie hs } := by
      unfold applyCookies; rw [hr]
    rw [runRequest_redirect_step sess url opts r rest loc h1 h2 h3, hac]

/-- Witness for the amended C2 at a concrete trace. -/
theorem C2_cookie_fold_amended_witness :
    jarTrace [] [⟨200, some ["a=1; Path=/".toList], none, []⟩,
      ⟨200, some ["b=2".toList], none, []⟩] = foldSetCookie ["b=2".toList] := by
  exact (C2_cookie_fold_amended [] [⟨200, some ["a=1; Path=/".toList], none, []⟩] []
    ⟨200, some ["b=2".toList], none, []⟩ ["b=2".toList] rfl (by simp)).1

end CookieClaims

section LoginClaims

/-- Counterexample to claim C4: a POST /login response whose entire body is
the two-character JSON object text parses to an object; the object has no
`includes` method, so the check raises a TypeError and login fails with that
error, although the body does not contain the failure phrase — the claim's
"in every other case it returns success" does not hold for JSON bodies. -/
theorem C4_login_check_counterexample :
    parseBody "\x7b\x7d".toList = HttpBody.json (Json.obj []) ∧
    login ⟨200, parseBody "\x7b\x7d".toList⟩ = LoginOutcome.typeError ∧
    login ⟨200, parseBody "\x7b\x7d".toList⟩ ≠ LoginOutcome.success ∧
    containsSeq loginPhrase "\x7b\x7d".toList = false := by
  refine ⟨rfl, rfl, ?_, rfl⟩
  intro hcontra
  rw [show login ⟨200, parseBody "\x7b\x7d".toList⟩ = LoginOutcome.typeError from rfl] at hcontra
  cases hcontra

/-- On a string body the check is the substring test. -/
theorem loginCheck_text (t : LC) :
    loginCheck (.text t) =
      (if containsSeq loginPhrase t then .invalidCreds else .success) := rfl

theorem loginCheck_jsonStr (s : LC) :
    loginCheck (.json (.str s)) =
      (if containsSeq loginPhrase s then .invalidCreds else .success) := rfl

theorem loginCheck_arr (xs : List Json) :
    loginCheck (.json (.arr xs)) =
      (if xs.any (fun x => match x with | Json.str s => s == loginPhrase | _ => false)
        then .invalidCreds else .success) := rfl

theorem loginCheck_str_iff (s : LC) (o : LoginOutcome)
    (ho : o = (if containsSeq loginPhrase s then .invalidCreds else .success)) :
    (o = .invalidCreds ↔ containsSeq loginPhrase s = true) ∧
      (containsSeq loginPhrase s = false → o = .success) := by
  subst ho
  by_cases hc : containsSeq loginPhrase s = true
  · rw [if_pos hc]
    exact ⟨⟨fun _ => hc, fun _ => rfl⟩, fun hf => absurd hc (by simp [hf])⟩
  · rw [if_neg hc]
    exact ⟨⟨fun h => (LoginOutcome.noConfusion h), fun h => absurd h hc⟩, fun _ => rfl⟩

/-- Claim C4 (amended): the status code never enters the check; when the
response body is a string (raw text, or a JSON string literal), login fails
with the invalid-credentials error exactly when the body contains the fixed
failure phrase and returns success otherwise — including for an unrelated
500; when the body parsed to a JSON array, the check uses element equality
with the phrase; any other parsed JSON body (object, number, boolean, null)
raises a TypeError instead of returning success. -/
theorem C4_login_check_amended (b : HttpBody) (st st2 : Nat) :
    login ⟨st, b⟩ = login ⟨st2, b⟩ ∧
    (∀ s : LC, (b = .text s ∨ b = .json (.str s)) →
      (login ⟨st, b⟩ = .invalidCreds ↔ containsSeq loginPhrase s = true) ∧
      (containsSeq loginPhrase s = false → login ⟨st, b⟩ = .success)) ∧
    (∀ xs : List Json, b = .json (.arr xs) →
      (login ⟨st, b⟩ = .invalidCreds ↔ Json.str loginPhrase ∈ xs)) ∧
    ((∀ s : LC, b ≠ .text s) → (∀ s : LC, b ≠ .json (.str s)) →
      (∀ xs : List Json, b ≠ .json (.arr xs)) →
      login ⟨st, b⟩ = .typeError) := by
  refine ⟨rfl, ?_, ?_, ?_⟩
  · rintro s (rfl | rfl)
    · exact loginCheck_str_iff s _ (loginCheck_text s)
    · exact loginCheck_str_iff s _ (loginCheck_jsonStr s)
  · rintro xs rfl
    rw [show login ⟨st, .json (.arr xs)⟩ = loginCheck (.json (.arr xs)) from rfl,
      loginCheck_arr]
    by_cases hany :
        xs.any (fun x => match x with | Json.str s => s == loginPhrase | _ => false) = true
    · rw [if_pos hany]
      simp only [List.any_eq_true] at hany
      obtain ⟨x, hx, hpx⟩ := hany
      have hmem : Json.str loginPhrase ∈ xs := by
        rcases x with _ | bb | raw | s | ys | fs <;> simp at hpx
        rwa [show s = loginPhrase from hpx] at hx
      exact ⟨fun _ => hmem, fun _ => rfl⟩
    · rw [if_neg hany]
      refine ⟨fun h => (LoginOutcome.noConfusion h), fun hmem => ?_⟩
      exfalso
      apply hany
      simp only [List.any_eq_true]
      exact ⟨Json.str loginPhrase, hmem, by simp⟩
  · intro ht hstr harr
    rcases b with v | t
    · rcases v with _ | bb | raw | s | xs | fs
      · rfl
      · rfl
      · rfl
      · exact absurd rfl (hstr s)
      · exact absurd rfl (harr xs)
      · rfl
    · exact absurd rfl (ht t)

/-- Witness for the amended C4: a plain-text error body with an unrelated
500 status and no failure phrase is treated as success. -/
theorem C4_login_check_amended_witness :
    login ⟨500, HttpBody.text "internal server error".toList⟩ = LoginOutcome.success := by
  exact ((C4_login_check_amended (HttpBody.text "internal server error".toList) 500 500).2.1
    "internal server error".toList (Or.inl rfl)).2 rfl

end LoginClaims

section DiscoveryClaims

theorem collectUnique_head (l : List LC) :
    (collectUnique [] l).head? = l.head? := by
  cases l with
  | nil => rfl
  | cons x t =>
    rw [show collectUnique [] (x :: t) = collectUnique [x] t from rfl]
    obtain ⟨tail, htail⟩ := collectUnique_isPrefix t [x]
    rw [← htail]
    rfl

theorem scanAll_head {α : Type} (step : LC → Option (α × Nat)) :
    ∀ {fuel : Nat} {s : LC}, s.length < fuel →
      (scanAll step fuel s).head? = scanFirst (fun t => (step t).map Prod.fst) s := by
  intro fuel
  induction fuel with
  | zero => intro s h; omega
  | succ f ih =>
    intro s h
    cases s with
    | nil => rfl
    | cons c rest =>
      rw [scanAll, scanFirst]
      cases hs : step (c :: rest) with
      | some p => rfl
      | none =>
        simp only []
        exact ih (by simpa using Nat.lt_of_succ_lt_succ h)

theorem idList_head (lit body : LC) :
    (idList lit body).head? = scanFirst (fun t => (idStep lit t).map Prod.fst) body := by
  unfold idList
  rw [collectUnique_head]
  exact scanAll_head _ (Nat.lt_succ_self _)

/-- Claim C5 (confirmed): discovery selects at each level exactly the first
pattern match in page order, with environment and application both scanned
from the same project page; it reports failure as soon as a level has zero
matches — in particular with no project match nothing at all is set — and a
failed discovery never carries a complete triple. -/
theorem C5_discovery (dash proj : LC) :
    (idList "/project/".toList dash = [] →
      discoverResources dash proj = ⟨none, none, none, false⟩) ∧
    ((discoverResources dash proj).ok = true ↔
      idList "/project/".toList dash ≠ [] ∧ idList "/environment/".toList proj ≠ [] ∧
        idList "/application/".toList proj ≠ []) ∧
    ((discoverResources dash proj).ok = false →
      (discoverResources dash proj).applicationId = none) ∧
    (∀ p e a : LC, discoverResources dash proj = ⟨some p, some e, some a, true⟩ →
      scanFirst (fun t => (idStep "/project/".toList t).map Prod.fst) dash = some p ∧
      scanFirst (fun t => (idStep "/environment/".toList t).map Prod.fst) proj = some e ∧
      scanFirst (fun t => (idStep "/application/".toList t).map Prod.fst) proj = some a) := by
  unfold discoverResources
  cases h1 : (idList "/project/".toList dash).head? with
  | none =>
    have he1 : idList "/project/".toList dash = [] := by
      cases hl : idList "/project/".toList dash with
      | nil => rfl
      | cons x t => rw [hl] at h1; cases h1
    refine ⟨fun _ => rfl, ?_, fun _ => rfl, ?_⟩
    · constructor
      · intro hcontra; cases hcontra
      · rintro ⟨hne, _, _⟩; exact absurd he1 hne
    · intro p e a hcontra; cases hcontra
  | some p0 =>
    have hne1 : idList "/project/".toList dash ≠ [] := by
      intro hl; rw [hl] at h1; cases h1
    cases h2 : (idList "/environment/".toList proj).head? with
    | none =>
      have he2 : idList "/environment/".toList proj = [] := by
        cases hl : idList "/environment/".toList proj with
        | nil => rfl
        | cons x t => rw [hl] at h2; cases h2
      refine ⟨fun hl => absurd hl hne1, ?_, fun _ => rfl, ?_⟩
      · constructor
        · intro hcontra; cases hcontra
        · rintro ⟨_, hne, _⟩; exact absurd he2 hne
      · intro p e a hcontra; cases hcontra
    | some e0 =>
      have hne2 : idList "/environment/".toList proj ≠ [] := by
        intro hl; rw [hl] at h2; cases h2
      cases h3 : (idList "/application/".toList proj).head? with
      | none =>
        have he3 : idList "/application/".toList proj = [] := by
          cases hl : idList "/application/".toList proj with
          | nil => rfl
          | cons x t => rw [hl] at h3; cases h3
        refine ⟨fun hl => absurd hl hne1, ?_, fun _ => rfl, ?_⟩
        · constructor
          · intro hcontra; cases hcontra
          · rintro ⟨_, _, hne⟩; exact absurd he3 hne
        · intro p e a hcontra; cases hcontra
      | some a0 =>
        have hne3 : idList "/application/".toList proj ≠ [] := by
          intro hl; rw [hl] at h3; cases h3
        refine ⟨fun hl => absurd hl hne1, ?_, ?_, ?_⟩
        · exact ⟨fun _ => ⟨hne1, hne2, hne3⟩, fun _ => rfl⟩
        · intro hcontra; cases hcontra
        · intro p e a heq
          injection heq with hp he ha hok
          obtain rfl : p0 = p := Option.some.inj hp
          obtain rfl : e0 = e := Option.some.inj he
          obtain rfl : a0 = a := Option.some.inj ha
          refine ⟨?_, ?_, ?_⟩
          · rw [← idList_head]; exact h1
          · rw [← idList_head]; exact h2
          · rw [← idList_head]; exact h3

/-- Witness for C5: a dashboard with no project pattern fails outright, and
on fixture pages with several candidates the first match at each level is
selected. -/
theorem C5_discovery_witness :
    discoverResources "nothing".toList "x".toList =
      ⟨none, none, none, false⟩ ∧
    scanFirst (fun t => (idStep "/project/".toList t).map Prod.fst)
      "a /project/p1 /project/p2".toList = some "p1".toList := by
  constructor
  · exact (C5_discovery "nothing".toList "x".toList).1 rfl
  · exact ((C5_discovery "a /project/p1 /project/p2".toList
      "/environment/e9 /application/a7".toList).2.2.2
      "p1".toList "e9".toList "a7".toList rfl).1

end DiscoveryClaims

section NormalizeClaims

theorem replaceScan_id {step : LC → Option (LC × Nat)} :
    ∀ {fuel : Nat} {s : LC}, (∀ t : LC, t <:+ s → step t = none) →
      replaceScan step fuel s = s := by
  intro fuel
  induction fuel with
  | zero => intro s _; rfl
  | succ f ih =>
    intro s hnone
    cases s with
    | nil => rfl
    | cons c rest =>
      rw [replaceScan, hnone (c :: rest) (List.suffix_refl _)]
      exact congrArg (c :: ·) (ih (fun t ht => hnone t (ht.trans (List.suffix_cons c rest))))

theorem litStep_none {pat rep s : LC} (h : containsSeq pat s = false) :
    ∀ t : LC, t <:+ s → litStep pat rep t = none := by
  intro t ht
  unfold litStep
  rw [if_neg]
  rintro ⟨hne, hpre⟩
  have hinf : pat <:+: s := (((isPre_iff pat t).mp hpre).isInfix).trans ht.isInfix
  exact absurd ((containsSeq_iff pat s).mpr hinf) (by simp [h])

theorem replaceAllLit_id {pat rep s : LC} (h : containsSeq pat s = false) :
    replaceAllLit pat rep s = s :=
  replaceScan_id (litStep_none h)

theorem brStep_none {s : LC} (h : ('<' : Char) ∉ s) :
    ∀ t : LC, t <:+ s → brStep t = none := by
  intro t ht
  match t with
  | [] => rfl
  | [c] => rfl
  | [c, b] => rfl
  | c :: b :: r :: rest =>
    have hc : c ∈ s := ht.subset (by simp)
    have hcne : (c == '<') = false := by
      simp only [beq_eq_false_iff_ne, ne_eq]
      intro hcontra
      exact h (hcontra ▸ hc)
    unfold brStep
    dsimp only
    simp [hcne]

theorem stripTagStep_none {s : LC} (h : ('<' : Char) ∉ s) :
    ∀ t : LC, t <:+ s → stripTagStep t = none := by
  intro t ht
  match t with
  | [] => rfl
  | c :: rest =>
    have hc : c ∈ s := ht.subset (by simp)
    have hcne : (c == '<') = false := by
      simp only [beq_eq_false_iff_ne, ne_eq]
      intro hcontra
      exact h (hcontra ▸ hc)
    unfold stripTagStep
    dsimp only
    simp [hcne]

/-- Counterexample to claim C9: the four-character input a backslash n b is
already entity-decoded (no entity pattern occurs) and tag-free (no angle
bracket occurs), yet the pipeline converts the escaped newline and returns a
different string — "returns the input unchanged" fails as stated. -/
theorem C9_normalize_counterexample :
    (∀ pat ∈ ["&lt;", "&gt;", "&amp;", "&quot;", "&#039;", "&nbsp;"].map String.toList,
      containsSeq pat "a\\nb".toList = false) ∧
    ('<' : Char) ∉ "a\\nb".toList ∧
    normalizeLogs "a\\nb".toList = "a\nb".toList ∧
    normalizeLogs "a\\nb".toList ≠ "a\\nb".toList := by
  refine ⟨by decide, by decide, rfl, by decide⟩

/-- Claim C9 (amended): the normalization pipeline returns unchanged any
input in which none of the six entity patterns occurs, none of the escaped
newline, carriage-return or tab sequences occurs, and no angle bracket
occurs (so the input is tag-free); on such input applying the pipeline twice
equals applying it once.  The extra no-escape-sequence condition is exactly
what the counterexample forces. -/
theorem C9_normalize_amended (s : LC)
    (h1 : containsSeq "&lt;".toList s = false)
    (h2 : containsSeq "&gt;".toList s = false)
    (h3 : containsSeq "&amp;".toList s = false)
    (h4 : containsSeq "&quot;".toList s = false)
    (h5 : containsSeq "&#039;".toList s = false)
    (h6 : containsSeq "&nbsp;".toList s = false)
    (h7 : containsSeq "\\n".toList s = false)
    (h8 : containsSeq "\\r".toList s = false)
    (h9 : containsSeq "\\t".toList s = false)
    (h10 : ('<' : Char) ∉ s) :
    normalizeLogs s = s ∧ normalizeLogs (normalizeLogs s) = normalizeLogs s := by
  have hid : normalizeLogs s = s := by
    unfold normalizeLogs
    dsimp only
    rw [replaceAllLit_id h1, replaceAllLit_id h2, replaceAllLit_id h3,
      replaceAllLit_id h4, replaceAllLit_id h5, replaceAllLit_id h6,
      replaceAllLit_id h7, replaceAllLit_id h8, replaceAllLit_id h9,
      replaceScan_id (brStep_none h10), replaceScan_id (stripTagStep_none h10)]
  exact ⟨hid, by rw [hid, hid]⟩

/-- Witness for the amended C9: ordinary log text is left unchanged. -/
theorem C9_normalize_amended_witness :
    normalizeLogs "Cloning into repo... Build OK".toList =
      "Cloning into repo... Build OK".toList := by
  exact (C9_normalize_amended "Cloning into repo... Build OK".toList
    (by decide) (by decide) (by decide) (by decide) (by decide) (by decide)
    (by decide) (by decide) (by decide) (by decide)).1

end NormalizeClaims

section DeploymentsClaims

theorem deployIdAt_shape {s id24 : LC} (h : deployIdAt s = some id24) :
    id24.length = 24 ∧ ∀ c ∈ id24, idChar c = true := by
  unfold deployIdAt at h
  split at h
  · dsimp only at h
    split at h
    · next hcond =>
      cases h
      simp only [Bool.and_eq_true, beq_iff_eq, List.all_eq_true] at hcond
      exact ⟨hcond.1, fun c hc => hcond.2 c hc⟩
    · cases h
  · cases h

theorem deployIdAt_decomp {s id24 : LC} (h : deployIdAt s = some id24) :
    ∃ r : LC, s = deployLit ++ (id24 ++ r) ∧ id24.length = 24 ∧
      ∀ c ∈ id24, idChar c = true := by
  have hshape := deployIdAt_shape h
  unfold deployIdAt at h
  split at h
  · next hpre =>
    dsimp only at h
    split at h
    · next hcond =>
      cases h
      obtain ⟨rest, hrest⟩ := (isPre_iff _ _).mp hpre
      refine ⟨(s.drop 12).drop 24, ?_, hshape.1, hshape.2⟩
      have hd : s.drop 12 = rest := by
        rw [← hrest, show (12 : Nat) = deployLit.length from rfl, List.drop_left]
      rw [List.take_append_drop, hd, hrest]
    · cases h
  · cases h

theorem deployIdAt_no_overlap {id24 r : LC} (hlen : id24.length = 24)
    (hch : ∀ c ∈ id24, idChar c = true) (k : Nat) (hk1 : 1 ≤ k) (hk2 : k < 36) :
    deployIdAt ((deployLit ++ (id24 ++ r)).drop k) = none := by
  have hpre : isPre deployLit ((deployLit ++ (id24 ++ r)).drop k) = false := by
    by_contra hcon
    have hpre2 : isPre deployLit ((deployLit ++ (id24 ++ r)).drop k) = true := by
      simpa using hcon
    have hP : deployLit <+: ((deployLit ++ (id24 ++ r)).drop k) :=
      (isPre_iff _ _).mp hpre2
    rw [List.drop_append_eq_append_drop] at hP
    rcases Nat.lt_or_ge k 12 with hk12 | hk12
    · have hk0 : k - deployLit.length = 0 := by
        rw [show deployLit.length = 12 from rfl]; omega
      rw [hk0, List.drop_zero] at hP
      rcases Nat.lt_or_ge k 11 with hk11 | hk11
      · interval_cases k <;>
          simp only [show deployLit = "/deployment/".toList from rfl] at hP <;>
          simp [List.cons_prefix_cons, String.toList] at hP
      · have hk : k = 11 := by omega
        subst hk
        rw [show deployLit.drop 11 = ['/'] from rfl] at hP
        rw [show deployLit = '/' :: "deployment/".toList from rfl,
          show (['/'] ++ (id24 ++ r) : LC) = '/' :: (id24 ++ r) from rfl,
          List.cons_prefix_cons] at hP
        obtain ⟨-, hP2⟩ := hP
        have h11 : "deployment/".toList = (id24 ++ r).take ("deployment/".toList).length :=
          List.prefix_iff_eq_take.mp hP2
        have ht11 : (id24 ++ r).take ("deployment/".toList).length = id24.take 11 := by
          rw [show ("deployment/".toList).length = 11 from rfl,
            List.take_append_eq_append_take,
            show 11 - id24.length = 0 from by omega, List.take_zero, List.append_nil]
        rw [ht11] at h11
        have hmem : '/' ∈ id24 :=
          List.take_subset _ _ (h11 ▸ (by decide : '/' ∈ "deployment/".toList))
        exact absurd (hch '/' hmem) (by decide)
    · have hnil : deployLit.drop k = [] := by
        apply List.drop_eq_nil_of_le
        rw [show deployLit.length = 12 from rfl]; omega
      rw [hnil, List.nil_append, List.drop_append_eq_append_drop] at hP
      have hlt : k - deployLit.length < 24 := by
        rw [show deployLit.length = 12 from rfl]; omega
      have hne : id24.drop (k - deployLit.length) ≠ [] := by
        intro hcontra
        have := congrArg List.length hcontra
        simp only [List.length_drop, List.length_nil] at this
        omega
      obtain ⟨c, t, hct⟩ := List.exists_cons_of_ne_nil hne
      rw [hct, List.cons_append, show deployLit = '/' :: "deployment/".toList from rfl,
        List.cons_prefix_cons] at hP
      obtain ⟨hc, -⟩ := hP
      have hmem : c ∈ id24 := List.drop_subset (k - deployLit.length) id24 (by rw [hct]; simp)
      rw [← hc] at hmem
      exact absurd (hch '/' hmem) (by decide)
  unfold deployIdAt
  rw [hpre]
  simp

theorem scanAllOverlap_congr_none {α : Type} {step : LC → Option α} :
    ∀ (m : Nat) (s : LC), (∀ k, 1 ≤ k → k ≤ m → step (s.drop k) = none) →
      scanAllOverlap step (s.drop 1) = scanAllOverlap step (s.drop (m + 1)) := by
  intro m
  induction m with
  | zero => intro s _; rfl
  | succ m ih =>
    intro s hnone
    cases hs : s.drop 1 with
    | nil =>
      have hlen : s.length ≤ 1 := by
        have := congrArg List.length hs
        simp only [List.length_drop, List.length_nil] at this
        omega
      rw [List.drop_eq_nil_of_le (show s.length ≤ m + 1 + 1 by omega)]
    | cons c t =>
      have h1 : step (s.drop 1) = none := hnone 1 (by omega) (by omega)
      rw [hs] at h1
      rw [scanAllOverlap, h1]
      have hih : scanAllOverlap step ((s.drop 1).drop 1) =
          scanAllOverlap step ((s.drop 1).drop (m + 1)) := by
        apply ih
        intro k hk1 hkm
        rw [List.drop_drop]
        have : k + 1 ≤ m + 1 := by omega
        have h2 : step (s.drop (k + 1)) = none := hnone (k + 1) (by omega) this
        convert h2 using 3
        omega
      have ht : t = (s.drop 1).drop 1 := by rw [hs]; rfl
      have hdd : (List.drop 1 s).drop (m + 1) = s.drop (m + 1 + 1) := by
        rw [List.drop_drop]
        congr 1
        omega
      rw [ht, hih, hdd]

theorem scanAll_simple_eq_overlap :
    ∀ {fuel : Nat} {s : LC}, s.length < fuel →
      scanAll deploySimpleStep fuel s = scanAllOverlap deployIdAt s := by
  intro fuel
  induction fuel with
  | zero => intro s h; omega
  | succ f ih =>
    intro s h
    cases s with
    | nil => rfl
    | cons c rest =>
      rw [scanAll, scanAllOverlap]
      cases hd : deployIdAt (c :: rest) with
      | none =>
        rw [show deploySimpleStep (c :: rest) = none from by
          unfold deploySimpleStep; rw [hd]; rfl]
        exact ih (by simpa using Nat.lt_of_succ_lt_succ h)
      | some a =>
        rw [show deploySimpleStep (c :: rest) = some (a, 36) from by
          unfold deploySimpleStep; rw [hd]; rfl]
        dsimp only
        congr 1
        obtain ⟨r, hdec, hlen, hch⟩ := deployIdAt_decomp hd
        have hnone : ∀ k, 1 ≤ k → k ≤ 35 → deployIdAt ((c :: rest).drop k) = none := by
          intro k hk1 hk35
          rw [hdec]
          exact deployIdAt_no_overlap hlen hch k hk1 (by omega)
        have hcongr := scanAllOverlap_congr_none 35 (c :: rest) hnone
        have hdrop1 : (c :: rest).drop 1 = rest := rfl
        rw [hdrop1] at hcongr
        rw [hcongr]
        have hlt : ((c :: rest).drop 36).length < f := by
          have hle : ((c :: rest).drop 36).length ≤ rest.length := by
            simp only [List.length_drop, List.length_cons]
            omega
          have hr : rest.length < f := by simpa using Nat.lt_of_succ_lt_succ h
          omega
        exact ih hlt

theorem deployStatusStep_shape {s a : LC} {n : Nat}
    (h : deployStatusStep s = some (a, n)) :
    a.length = 24 ∧ ∀ c ∈ a, idChar c = true := by
  unfold deployStatusStep at h
  split at h
  · cases h
  · next id24 hid =>
    dsimp only at h
    split at h
    · cases h
      exact deployIdAt_shape hid
    · split at h
      · cases h
        exact deployIdAt_shape hid
      · cases h

theorem deploySimpleStep_shape {s a : LC} {n : Nat}
    (h : deploySimpleStep s = some (a, n)) :
    a.length = 24 ∧ ∀ c ∈ a, idChar c = true := by
  unfold deploySimpleStep at h
  cases hd : deployIdAt s with
  | none => rw [hd] at h; cases h
  | some id24 =>
    rw [hd] at h
    cases h
    exact deployIdAt_shape hd

set_option maxRecDepth 100000 in
/-- Counterexample to claim C10: on this page the primary status pattern's
first match consumes past the first occurrence of the id bbbb…, because its
trailing greedy run of non-angle characters extends to the next opening
angle bracket; that id is then collected only at its later re-occurrence, so
the returned list is [aaaa…, cccc…, bbbb…] while the ids in order of first
occurrence in the page body are [aaaa…, bbbb…, cccc…]. -/
theorem C10_deployments_order_counterexample :
    getDeploymentsList
        ("/deployment/aaaaaaaaaaaaaaaaaaaaaaaa Success /deployment/" ++
         "bbbbbbbbbbbbbbbbbbbbbbbb end</deployment/cccccccccccccccccccccccc Success<" ++
         "/deployment/bbbbbbbbbbbbbbbbbbbbbbbb Success<").toList =
      ["aaaaaaaaaaaaaaaaaaaaaaaa".toList, "cccccccccccccccccccccccc".toList,
       "bbbbbbbbbbbbbbbbbbbbbbbb".toList] ∧
    collectUnique []
        (deployOccurrences
          ("/deployment/aaaaaaaaaaaaaaaaaaaaaaaa Success /deployment/" ++
           "bbbbbbbbbbbbbbbbbbbbbbbb end</deployment/cccccccccccccccccccccccc Success<" ++
           "/deployment/bbbbbbbbbbbbbbbbbbbbbbbb Success<").toList) =
      ["aaaaaaaaaaaaaaaaaaaaaaaa".toList, "bbbbbbbbbbbbbbbbbbbbbbbb".toList,
       "cccccccccccccccccccccccc".toList] ∧
    getDeploymentsList
        ("/deployment/aaaaaaaaaaaaaaaaaaaaaaaa Success /deployment/" ++
         "bbbbbbbbbbbbbbbbbbbbbbbb end</deployment/cccccccccccccccccccccccc Success<" ++
         "/deployment/bbbbbbbbbbbbbbbbbbbbbbbb Success<").toList ≠
      collectUnique []
        (deployOccurrences
          ("/deployment/aaaaaaaaaaaaaaaaaaaaaaaa Success /deployment/" ++
           "bbbbbbbbbbbbbbbbbbbbbbbb end</deployment/cccccccccccccccccccccccc Success<" ++
           "/deployment/bbbbbbbbbbbbbbbbbbbbbbbb Success<").toList) := by
  refine ⟨rfl, rfl, ?_⟩
  intro hcontra
  rw [show getDeploymentsList
        ("/deployment/aaaaaaaaaaaaaaaaaaaaaaaa Success /deployment/" ++
         "bbbbbbbbbbbbbbbbbbbbbbbb end</deployment/cccccccccccccccccccccccc Success<" ++
         "/deployment/bbbbbbbbbbbbbbbbbbbbbbbb Success<").toList =
      ["aaaaaaaaaaaaaaaaaaaaaaaa".toList, "cccccccccccccccccccccccc".toList,
       "bbbbbbbbbbbbbbbbbbbbbbbb".toList] from rfl,
    show collectUnique []
        (deployOccurrences
          ("/deployment/aaaaaaaaaaaaaaaaaaaaaaaa Success /deployment/" ++
           "bbbbbbbbbbbbbbbbbbbbbbbb end</deployment/cccccccccccccccccccccccc Success<" ++
           "/deployment/bbbbbbbbbbbbbbbbbbbbbbbb Success<").toList) =
      ["aaaaaaaaaaaaaaaaaaaaaaaa".toList, "bbbbbbbbbbbbbbbbbbbbbbbb".toList,
       "cccccccccccccccccccccccc".toList] from rfl] at hcontra
  exact absurd hcontra (by decide)

/-- Claim C10 (amended): every returned element is a 24-character string of
lowercase letters and digits and the list has no duplicates; when the
primary status pattern finds nothing (and in the src/view-logs.js
implementation, always) the elements appear in order of their first
occurrence in the page body; in the primary path the elements appear in
pattern-match order, which the counterexample shows can differ from
first-occurrence order. -/
theorem C10_deployments_list_amended (body : LC) :
    (∀ d ∈ getDeploymentsList body, d.length = 24 ∧ ∀ c ∈ d, idChar c = true) ∧
    (getDeploymentsList body).Nodup ∧
    (collectUnique [] (scanAll deployStatusStep (body.length + 1) body) = [] →
      getDeploymentsList body = collectUnique [] (deployOccurrences body)) ∧
    getDeploymentsListSimple body = collectUnique [] (deployOccurrences body) := by
  have hsimple : scanAll deploySimpleStep (body.length + 1) body =
      scanAllOverlap deployIdAt body :=
    scanAll_simple_eq_overlap (Nat.lt_succ_self _)
  refine ⟨?_, ?_, ?_, ?_⟩
  · intro d hd
    unfold getDeploymentsList at hd
    dsimp only at hd
    split at hd
    · rcases mem_collectUnique hd with hmem | hmem
      · simp at hmem
      · exact scanAll_pred
          (P := fun a => a.length = 24 ∧ ∀ c ∈ a, idChar c = true)
          (fun s a n hs => deploySimpleStep_shape hs) hmem
    · rcases mem_collectUnique hd with hmem | hmem
      · simp at hmem
      · exact scanAll_pred
          (P := fun a => a.length = 24 ∧ ∀ c ∈ a, idChar c = true)
          (fun s a n hs => deployStatusStep_shape hs) hmem
  · unfold getDeploymentsList
    dsimp only
    split
    · exact collectUnique_nodup List.nodup_nil
    · exact collectUnique_nodup List.nodup_nil
  · intro hempty
    unfold getDeploymentsList deployOccurrences
    dsimp only
    rw [if_pos hempty, hsimple]
  · unfold getDeploymentsListSimple deployOccurrences
    rw [hsimple]

/-- Witness for the amended C10 on a page with one deployment id and no
status keyword: the fallback path returns the id in first-occurrence
order. -/
theorem C10_deployments_list_amended_witness :
    getDeploymentsList "/deployment/aaaaaaaaaaaaaaaaaaaaaaaa".toList =
      collectUnique []
        (deployOccurrences "/deployment/aaaaaaaaaaaaaaaaaaaaaaaa".toList) := by
  exact (C10_deployments_list_amended
    "/deployment/aaaaaaaaaaaaaaaaaaaaaaaa".toList).2.2.1 rfl

end DeploymentsClaims

/-- Witness for C1 at the preformatted-block fixture: extraction equals the
first-yield cascade and the winning strategy-3 content is truthy and
non-empty. -/
theorem C1_extract_priority_order_witness :
    extractRaw "<div><pre>Build OK</pre></div>".toList =
      firstYield "<div><pre>Build OK</pre></div>".toList ∧
    jsTruthy (Json.str "Build OK".toList) = true ∧ "Build OK".toList ≠ [] := by
  refine ⟨(C1_extract_priority_order "<div><pre>Build OK</pre></div>".toList).1, ?_, ?_⟩
  · exact ((C1_extract_priority_order "<div><pre>Build OK</pre></div>".toList).2.1 3
      (Json.str "Build OK".toList) rfl).1
  · exact ((C1_extract_priority_order "<div><pre>Build OK</pre></div>".toList).2.1 3
      (Json.str "Build OK".toList) rfl).2 "Build OK".toList rfl
